import Mathlib

/-!
Shallow embedding of the hexapawn web app's game core
(`src/hexpawn-webapp/app.py`) and verification of the frozen claims.

Boards are Python lists of lists of ints (`List (List Nat)`); move
coordinates are Python ints (`Int`), since the code computes `col + dc`
with `dc = -1` and then range-checks.  `cell b r c` models the Python
indexing `board[r][c]`, used in the source only after a bounds check.
-/

namespace Hexpawn

abbrev Board := List (List Nat)

def EMPTY : Nat := 0
def PLAYER : Nat := 1
def AI : Nat := 2

/-- `INITIAL_BOARD` from app.py: AI pawns at top, player pawns at bottom. -/
def INITIAL_BOARD : Board := [[2, 2, 2], [0, 0, 0], [1, 1, 1]]

/-- `board[r][c]` for in-range indices (the source always bounds-checks first). -/
def cell (b : Board) (r c : Int) : Nat :=
  (b.getD r.toNat []).getD c.toNat 0

/-- `board_to_string`: row-major flattening, each cell rendered with `str`. -/
def board_to_string (b : Board) : String :=
  String.join (b.map (fun row => String.join (row.map (fun c => toString c))))

abbrev Move := (Int × Int) × (Int × Int)

/-- The moving side's forward direction, `-1 if current_player == PLAYER
else 1` (Human: row−1; Computer: row+1). -/
def forward_dir (s : Nat) : Int := if s = PLAYER then -1 else 1

/-- The opposing side. -/
def opp_of (s : Nat) : Nat := if s = PLAYER then AI else PLAYER

/-- The hard-coded `PERFECT_MOVES` dictionary, as an association list. -/
def PERFECT_MOVES : List (String × Move) :=
  [("220010101", ((0, 1), (1, 1))),
   ("202010101", ((0, 1), (1, 1))),
   ("221000101", ((0, 0), (1, 0))),
   ("020210101", ((1, 1), (2, 0))),
   ("020201101", ((1, 1), (2, 2))),
   ("020010201", ((1, 1), (2, 0))),
   ("020010021", ((1, 1), (2, 2))),
   ("200210101", ((1, 0), (2, 1))),
   ("200201101", ((0, 2), (1, 2))),
   ("200010201", ((0, 2), (1, 2))),
   ("200010021", ((1, 0), (2, 1))),
   ("002200101", ((0, 2), (1, 1))),
   ("020200101", ((0, 2), (1, 1))),
   ("020002101", ((0, 0), (1, 1))),
   ("200020101", ((0, 2), (1, 1))),
   ("200002101", ((0, 0), (1, 1))),
   ("020010001", ((1, 1), (2, 1))),
   ("000210001", ((0, 2), (1, 2))),
   ("000010201", ((0, 0), (1, 0))),
   ("200010001", ((1, 0), (2, 0))),
   ("002010001", ((1, 2), (2, 2))),
   ("000200001", ((0, 1), (1, 1))),
   ("000020001", ((0, 1), (1, 1))),
   ("000002001", ((0, 0), (1, 0))),
   ("000000201", ((0, 2), (1, 2)))]

/-- `is_valid_move(board, from_pos, to_pos, current_player)` from app.py. -/
def is_valid_move (b : Board) (from_pos to_pos : Int × Int) (current_player : Nat) : Bool :=
  let from_row := from_pos.1; let from_col := from_pos.2
  let to_row := to_pos.1; let to_col := to_pos.2
  if ¬(0 ≤ from_row ∧ from_row < 3 ∧ 0 ≤ from_col ∧ from_col < 3 ∧
        0 ≤ to_row ∧ to_row < 3 ∧ 0 ≤ to_col ∧ to_col < 3) then false
  else if cell b from_row from_col ≠ current_player then false
  else if to_pos = from_pos then false
  else
    let direction : Int := if current_player = PLAYER then -1 else 1
    if to_col = from_col then
      decide (to_row = from_row + direction) && decide (cell b to_row to_col = EMPTY)
    else if (to_col - from_col).natAbs = 1 then
      decide (to_row = from_row + direction) &&
        decide (cell b to_row to_col ≠ EMPTY ∧ cell b to_row to_col ≠ current_player)
    else false

/-- Moves contributed by one source cell in `get_all_valid_moves`
(forward move first, then the `dc = -1` capture, then the `dc = 1` capture). -/
def cellMoves (b : Board) (current_player : Nat) (row col : Int) : List Move :=
  if cell b row col = current_player then
    let direction : Int := forward_dir current_player
    let new_row := row + direction
    (if 0 ≤ new_row ∧ new_row < 3 ∧ cell b new_row col = EMPTY then
        [((row, col), (new_row, col))] else []) ++
    (([-1, 1] : List Int).filterMap (fun dc =>
      let new_col := col + dc
      if 0 ≤ new_row ∧ new_row < 3 ∧ 0 ≤ new_col ∧ new_col < 3 ∧
          cell b new_row new_col ≠ EMPTY ∧ cell b new_row new_col ≠ current_player then
        some ((row, col), (new_row, new_col))
      else none))
  else []

/-- `get_all_valid_moves(board, current_player)`: row-major scan of cells. -/
def get_all_valid_moves (b : Board) (current_player : Nat) : List Move :=
  ([0, 1, 2] : List Int).flatMap (fun row =>
    ([0, 1, 2] : List Int).flatMap (fun col => cellMoves b current_player row col))

/-- In-place assignment `board[r][c] = v` on a (copied) board. -/
def setCell (b : Board) (r c : Int) (v : Nat) : Board :=
  b.set r.toNat ((b.getD r.toNat []).set c.toNat v)

/-- `make_move(board, from_pos, to_pos)`: deep-copies, writes the destination
cell from the source cell, then empties the source cell. -/
def make_move (b : Board) (from_pos to_pos : Int × Int) : Board :=
  let b1 := setCell b to_pos.1 to_pos.2 (cell b from_pos.1 from_pos.2)
  setCell b1 from_pos.1 from_pos.2 EMPTY

/-- `check_win(board, current_player)` from app.py. -/
def check_win (b : Board) (current_player : Nat) : Bool :=
  let opponent := if current_player = AI then PLAYER else AI
  let target_row : Int := if current_player = PLAYER then 0 else 2
  if ([0, 1, 2] : List Int).any (fun col => cell b target_row col = current_player) then
    true
  else if (b.map (fun row => row.countP (fun c => c = opponent))).sum = 0 then
    true
  else if get_all_valid_moves b opponent = [] then
    true
  else
    false

/-- Python's `max(l, key=lambda x: x[0])` on a nonempty list: the first
element with maximal first component (later elements replace only when
strictly greater). -/
def pyMax (l : List (Int × Move)) (dflt : Int × Move) : Int × Move :=
  match l with
  | [] => dflt
  | x :: xs => xs.foldl (fun acc y => if acc.1 < y.1 then y else acc) x

/-- The score computed for a candidate move in step 4 of `get_best_move`. -/
def score_move (b : Board) (mv : Move) : Int :=
  let to_pos := mv.2
  let s1 : Int := if to_pos.2 = 1 then 3 else 0
  let s2 : Int := to_pos.1 * 2
  let s3 : Int :=
    (([-1, 1] : List Int).map (fun dc =>
      let next_col := to_pos.2 + dc
      if 0 ≤ next_col ∧ next_col < 3 ∧ to_pos.1 + 1 < 3 ∧
          cell b (to_pos.1 + 1) next_col = PLAYER then (2 : Int) else 0)).sum
  if to_pos.1 < 2 then s1 + s2 + s3 else s1 + s2

/-- Default used where Python `l[0]` would raise `IndexError` on an empty
list; never reached when the AI has at least one legal move. -/
def dfltMove : Move := ((0, 0), (0, 0))

/-- `get_best_move(board)` from app.py: book lookup, then the prioritized
heuristic (single move, immediate win, captures with center priority,
highest-scored move). -/
def get_best_move (b : Board) : Move :=
  let board_str := board_to_string b
  match PERFECT_MOVES.lookup board_str with
  | some mv => mv
  | none =>
    let valid_moves := get_all_valid_moves b AI
    if valid_moves.length = 1 then valid_moves.headD dfltMove
    else
      match valid_moves.find? (fun mv => check_win (make_move b mv.1 mv.2) AI) with
      | some mv => mv
      | none =>
        let capture_moves := valid_moves.filter (fun mv => (mv.1.2 - mv.2.2).natAbs = 1)
        if capture_moves ≠ [] then
          match capture_moves.find? (fun mv => mv.2.2 = 1) with
          | some mv => mv
          | none => capture_moves.headD dfltMove
        else
          let scored_moves := valid_moves.map (fun mv => (score_move b mv, mv))
          if scored_moves ≠ [] then (pyMax scored_moves (0, dfltMove)).2
          else valid_moves.headD dfltMove

/-- The per-session state the `/move` handler reads and writes
(`session['board']`, `session['game_over']`, `session['winner']`). -/
structure GameState where
  board : Board
  game_over : Bool
  winner : Option String
  deriving DecidableEq

/-- The JSON reply of the `/move` handler, restricted to the fields the
claims are about; `error` records whether the `'error'` key is present. -/
structure MoveResponse where
  board : Board
  game_over : Bool
  winner : Option String
  error : Bool
  deriving DecidableEq

/-- The `/move` handler (lines 249–364 of app.py) as a function from the
session state and the proposed human move to the response and the new
session state. -/
def move_handler (st : GameState) (from_pos to_pos : Int × Int) :
    MoveResponse × GameState :=
  if st.game_over then
    ({ board := st.board, game_over := st.game_over, winner := st.winner,
       error := false }, st)
  else if ¬ is_valid_move st.board from_pos to_pos PLAYER then
    ({ board := st.board, game_over := false, winner := none, error := true }, st)
  else
    let board1 := make_move st.board from_pos to_pos
    if check_win board1 PLAYER then
      ({ board := board1, game_over := true, winner := some "player", error := false },
       { board := board1, game_over := true, winner := some "player" })
    else if get_all_valid_moves board1 AI = [] then
      ({ board := board1, game_over := true, winner := some "draw", error := false },
       { board := board1, game_over := true, winner := some "draw" })
    else
      let mv := get_best_move board1
      let board2 := make_move board1 mv.1 mv.2
      if check_win board2 AI then
        ({ board := board2, game_over := true, winner := some "ai", error := false },
         { board := board2, game_over := true, winner := some "ai" })
      else if get_all_valid_moves board2 PLAYER = [] then
        ({ board := board2, game_over := true, winner := some "ai", error := false },
         { board := board2, game_over := true, winner := some "ai" })
      else
        ({ board := board2, game_over := false, winner := none, error := false },
         { st with board := board2 })

/-- The side that moves after `s` (alternation between `PLAYER` and `AI`). -/
def other_side (s : Nat) : Nat := if s = AI then PLAYER else AI

/-- `Forced b turn winner`: with `turn` to move on board `b`, side `winner`
can force a win under the game's rules as orchestrated by the handler —
after each move the mover wins if `check_win` fires for it, a side with no
legal moves (per `get_all_valid_moves`) loses, and otherwise play
alternates. -/
inductive Forced : Board → Nat → Nat → Prop where
  | winNow : ∀ (b : Board) (turn : Nat) (mv : Move),
      mv ∈ get_all_valid_moves b turn →
      check_win (make_move b mv.1 mv.2) turn = true →
      Forced b turn turn
  | winStep : ∀ (b : Board) (turn : Nat) (mv : Move),
      mv ∈ get_all_valid_moves b turn →
      Forced (make_move b mv.1 mv.2) (other_side turn) turn →
      Forced b turn turn
  | loseAll : ∀ (b : Board) (turn winner : Nat), turn ≠ winner →
      (∀ mv ∈ get_all_valid_moves b turn,
        check_win (make_move b mv.1 mv.2) turn = false) →
      (∀ mv ∈ get_all_valid_moves b turn,
        Forced (make_move b mv.1 mv.2) (other_side turn) winner) →
      Forced b turn winner

mutual

/-- Fuel-bounded evaluator: `true` certifies that the side to move can
force a win. -/
def evalWin : Nat → Board → Nat → Bool
  | 0, _, _ => false
  | fuel + 1, b, turn =>
    (get_all_valid_moves b turn).any (fun mv =>
      check_win (make_move b mv.1 mv.2) turn ||
        evalLose fuel (make_move b mv.1 mv.2) (other_side turn))

/-- Fuel-bounded evaluator: `true` certifies that the side to move loses
against optimal play (every move fails to win at once and hands the
opponent a won position). -/
def evalLose : Nat → Board → Nat → Bool
  | 0, _, _ => false
  | fuel + 1, b, turn =>
    (get_all_valid_moves b turn).all (fun mv =>
      !check_win (make_move b mv.1 mv.2) turn &&
        evalWin fuel (make_move b mv.1 mv.2) (other_side turn))

end

/-- Positions reachable from the initial board by alternating legal moves,
Human first (legality per the code's own move generator). -/
inductive Reachable : Board → Nat → Prop where
  | init : Reachable INITIAL_BOARD PLAYER
  | step : ∀ (b : Board) (s : Nat) (mv : Move), Reachable b s →
      mv ∈ get_all_valid_moves b s →
      Reachable (make_move b mv.1 mv.2) (other_side s)

/-- The board after the Human advances the center pawn from the initial
position: `make_move(INITIAL_BOARD, (2,1), (1,1))`. -/
def board_after_center : Board := make_move INITIAL_BOARD (2, 1) (1, 1)

theorem other_side_mem (t : Nat) : other_side t = PLAYER ∨ other_side t = AI := by
  unfold other_side; split <;> simp

theorem other_side_ne (t : Nat) : t ≠ other_side t := by
  unfold other_side PLAYER AI
  split <;> omega

theorem other_side_involutive (t : Nat) (h : t = PLAYER ∨ t = AI) :
    other_side (other_side t) = t := by
  rcases h with h | h <;> subst h <;> decide

/-- Soundness of the fuel-bounded evaluators with respect to `Forced`. -/
theorem eval_sound : ∀ (fuel : Nat) (b : Board) (turn : Nat),
    turn = PLAYER ∨ turn = AI →
    (evalWin fuel b turn = true → Forced b turn turn) ∧
    (evalLose fuel b turn = true → Forced b turn (other_side turn)) := by
  intro fuel
  induction fuel with
  | zero =>
    intro b turn _
    refine ⟨fun h => ?_, fun h => ?_⟩ <;> simp [evalWin, evalLose] at h
  | succ n ih =>
    intro b turn hturn
    refine ⟨fun h => ?_, fun h => ?_⟩
    · rw [evalWin, List.any_eq_true] at h
      obtain ⟨mv, hmem, hmv⟩ := h
      simp only [Bool.or_eq_true] at hmv
      rcases hmv with hc | hl
      · exact Forced.winNow b turn mv hmem hc
      · have hf := (ih (make_move b mv.1 mv.2) (other_side turn) (other_side_mem turn)).2 hl
        rw [other_side_involutive turn hturn] at hf
        exact Forced.winStep b turn mv hmem hf
    · rw [evalLose, List.all_eq_true] at h
      refine Forced.loseAll b turn (other_side turn) (other_side_ne turn)
        (fun mv hmem => ?_) (fun mv hmem => ?_)
      · have hh := h mv hmem
        simp only [Bool.and_eq_true, Bool.not_eq_true'] at hh
        exact hh.1
      · have hh := h mv hmem
        simp only [Bool.and_eq_true] at hh
        exact (ih (make_move b mv.1 mv.2) (other_side turn) (other_side_mem turn)).1 hh.2

theorem pyMax_mem (x : Int × Move) (xs : List (Int × Move)) (d : Int × Move) :
    pyMax (x :: xs) d ∈ x :: xs := by
  suffices h : ∀ (l : List (Int × Move)) (acc : Int × Move),
      l.foldl (fun a y => if a.1 < y.1 then y else a) acc ∈ acc :: l from h xs x
  intro l
  induction l with
  | nil => intro acc; simp
  | cons y ys ih =>
    intro acc
    simp only [List.foldl_cons]
    rcases List.mem_cons.mp (ih (if acc.1 < y.1 then y else acc)) with h | h
    · rw [h]
      split
      · exact List.mem_cons_of_mem _ (List.mem_cons_self _ _)
      · exact List.mem_cons_self _ _
    · exact List.mem_cons_of_mem _ (List.mem_cons_of_mem _ h)

/-- On any board whose canonical string misses the book and where the AI has
a legal move, every branch of `get_best_move`'s fallback returns an element
of `get_all_valid_moves`. -/
theorem get_best_move_mem_of_lookup_none (b : Board)
    (hbook : PERFECT_MOVES.lookup (board_to_string b) = none)
    (hmoves : get_all_valid_moves b AI ≠ []) :
    get_best_move b ∈ get_all_valid_moves b AI := by
  simp only [get_best_move]
  rw [hbook]
  obtain ⟨a, as, hcons⟩ := List.exists_cons_of_ne_nil hmoves
  by_cases h1 : (get_all_valid_moves b AI).length = 1
  · simp only [h1, if_pos rfl]
    rw [hcons]; simp
  · simp only [h1, if_false]
    rcases hf : (get_all_valid_moves b AI).find?
        (fun mv => check_win (make_move b mv.1 mv.2) AI) with _ | mv
    · rcases hcapne : (get_all_valid_moves b AI).filter
          (fun mv => decide ((mv.1.2 - mv.2.2).natAbs = 1)) with _ | ⟨c, cs⟩
      · simp only [hf, hcapne, ne_eq, not_true_eq_false, if_false]
        have hscored : (get_all_valid_moves b AI).map
            (fun mv => (score_move b mv, mv)) ≠ [] := by
          rw [hcons]; simp
        simp only [hscored, if_true]
        have hmem : (pyMax ((get_all_valid_moves b AI).map
            (fun mv => (score_move b mv, mv))) (0, dfltMove)) ∈
            (get_all_valid_moves b AI).map (fun mv => (score_move b mv, mv)) := by
          rw [hcons, List.map_cons]
          exact pyMax_mem _ _ _
        obtain ⟨mv, hmv, hemv⟩ := List.mem_map.mp hmem
        rw [← hemv]
        exact hmv
      · simp only [hf, hcapne, ne_eq, reduceCtorEq, not_false_eq_true, if_true]
        rcases hcf : (c :: cs).find? (fun mv => decide (mv.2.2 = 1)) with _ | mv
        · simp only [hcf]
          have : c ∈ (get_all_valid_moves b AI).filter
              (fun mv => decide ((mv.1.2 - mv.2.2).natAbs = 1)) := by
            rw [hcapne]; simp
          simpa using List.mem_of_mem_filter this
        · simp only [hcf]
          have hmemf := List.mem_of_find?_eq_some hcf
          rw [← hcapne] at hmemf
          exact List.mem_of_mem_filter hmemf
    · simp only [hf]
      exact List.mem_of_find?_eq_some hf

theorem other_side_PLAYER : other_side PLAYER = AI := by decide

/-- C1: Starting from the initial 3x3 board with Human to move, after the
Human advances their center pawn one square forward ((2,1) to (1,1)), the
move returned by the computer-reply function `get_best_move` on the
resulting board leads to a position from which the Computer can force a win
under optimal play by both sides (the Computer's game-theoretic value at
its resulting state is Win): with the Human to move on the board reached by
the Computer's reply, the Computer has a forced win. -/
theorem C1_computer_reply_reaches_winning_state :
    Forced (make_move board_after_center (get_best_move board_after_center).1
      (get_best_move board_after_center).2) PLAYER AI := by
  have hmv : get_best_move board_after_center = ((0, 0), (1, 1)) := by decide
  rw [hmv]
  have h : evalLose 8 (make_move board_after_center (0, 0) (1, 1)) PLAYER = true := by
    decide
  have hs := (eval_sound 8 (make_move board_after_center (0, 0) (1, 1)) PLAYER
    (Or.inl rfl)).2 h
  rwa [other_side_PLAYER] at hs

/-- C2 (refuted — evidence of the code bug): the position reached from the
initial board by the single legal Human move (2,1)→(1,1) has the Computer
to move, the game is not over, and yet its canonical string "222010101" is
not a key of `PERFECT_MOVES` (the entry whose comment says "White moved
center pawn" carries the mistyped key "221000101"), so `get_best_move`
takes the fallback path for a reachable Computer-to-move position. -/
theorem C2_reachable_position_missing_from_book :
    Reachable board_after_center AI ∧
    check_win board_after_center PLAYER = false ∧
    check_win board_after_center AI = false ∧
    board_to_string board_after_center = "222010101" ∧
    PERFECT_MOVES.lookup (board_to_string board_after_center) = none := by
  refine ⟨?_, by decide, by decide, by decide, by decide⟩
  have h := Reachable.step INITIAL_BOARD PLAYER ((2, 1), (1, 1)) Reachable.init
    (by decide)
  rwa [other_side_PLAYER] at h

/-- C7 (refuted as stated): on the board whose canonical string is the book
key "220010101", the Computer has legal moves, yet `get_best_move` returns
the recorded book move ((0,1),(1,1)) — a straight move into an occupied
square — which is not among the legal Computer moves. -/
theorem C7_book_move_can_be_illegal :
    get_all_valid_moves ([[2, 2, 0], [0, 1, 0], [1, 0, 1]] : Board) AI ≠ [] ∧
    get_best_move ([[2, 2, 0], [0, 1, 0], [1, 0, 1]] : Board) = ((0, 1), (1, 1)) ∧
    ((0, 1), (1, 1)) ∉
      get_all_valid_moves ([[2, 2, 0], [0, 1, 0], [1, 0, 1]] : Board) AI := by
  refine ⟨by decide, by decide, by decide⟩

/-- C7 amended: for every board whose canonical string is NOT a key of
`PERFECT_MOVES` and on which the Computer has at least one legal move, the
move returned by `get_best_move` appears in `get_all_valid_moves(board, AI)`;
when the canonical string is a book key the recorded move is returned
without any legality check and need not be legal. -/
theorem C7_amended_fallback_move_is_legal (b : Board)
    (hbook : PERFECT_MOVES.lookup (board_to_string b) = none)
    (hmoves : get_all_valid_moves b AI ≠ []) :
    get_best_move b ∈ get_all_valid_moves b AI :=
  get_best_move_mem_of_lookup_none b hbook hmoves

/-- Witness for the amended C7 at the reachable board "222010101". -/
theorem C7_amended_fallback_move_is_legal_witness :
    PERFECT_MOVES.lookup (board_to_string board_after_center) = none ∧
    get_all_valid_moves board_after_center AI ≠ [] ∧
    get_best_move board_after_center ∈ get_all_valid_moves board_after_center AI :=
  ⟨by decide, by decide,
    C7_amended_fallback_move_is_legal board_after_center (by decide) (by decide)⟩

/-- Coordinates with row and column in `{0, 1, 2}`, per the spec's Move
data model. -/
abbrev in_range (p : Int × Int) : Prop := 0 ≤ p.1 ∧ p.1 < 3 ∧ 0 ≤ p.2 ∧ p.2 < 3

/-- A 3x3 board whose cells are each one of Empty(0), Player(1), AI(2). -/
abbrev Wellformed (b : Board) : Prop :=
  b.length = 3 ∧ ∀ row ∈ b, row.length = 3 ∧ ∀ c ∈ row, c < 3

theorem cell_lt_three {b : Board} (hwf : Wellformed b) {r c : Int}
    (hr0 : 0 ≤ r) (hr : r < 3) (hc0 : 0 ≤ c) (hc : c < 3) : cell b r c < 3 := by
  obtain ⟨hlen, hrows⟩ := hwf
  have hrn : r.toNat < b.length := by rw [hlen]; omega
  have hrow : b.getD r.toNat [] = b[r.toNat] := by
    rw [List.getD_eq_getElem?_getD, List.getElem?_eq_getElem hrn]; rfl
  obtain ⟨hrl, hcells⟩ := hrows _ (List.getElem_mem hrn)
  have hcn : c.toNat < (b[r.toNat]).length := by rw [hrl]; omega
  unfold cell
  rw [hrow, List.getD_eq_getElem?_getD, List.getElem?_eq_getElem hcn]
  exact hcells _ (List.getElem_mem hcn)

/-- The claim's characterization of a legal move: both coordinates in
range, the source holds exactly the moving side's pawn, source ≠
destination, and either a straight advance into an empty cell or a
one-column diagonal capture of an opposing pawn, always one row forward. -/
abbrev ValidMoveSpec (b : Board) (f t : Int × Int) (s : Nat) : Prop :=
  in_range f ∧ in_range t ∧ cell b f.1 f.2 = s ∧ f ≠ t ∧
    ((t.2 = f.2 ∧ t.1 = f.1 + forward_dir s ∧ cell b t.1 t.2 = EMPTY) ∨
     ((t.2 - f.2).natAbs = 1 ∧ t.1 = f.1 + forward_dir s ∧ cell b t.1 t.2 = opp_of s))

theorem forward_dir_PLAYER : forward_dir PLAYER = -1 := rfl

theorem forward_dir_AI : forward_dir AI = 1 := rfl

theorem opp_of_PLAYER : opp_of PLAYER = AI := rfl

theorem opp_of_AI : opp_of AI = PLAYER := rfl

theorem valid_move_iff_spec (b : Board) (f t : Int × Int) (s : Nat)
    (hwf : Wellformed b) (hs : s = PLAYER ∨ s = AI) :
    is_valid_move b f t s = true ↔ ValidMoveSpec b f t s := by
  simp only [is_valid_move]
  split_ifs with h1 h2 h3 h4 h5 h6 h7
  -- in-range, wrong source pawn
  · simp only [Bool.false_eq_true, false_iff]
    rintro ⟨-, -, hcell, -⟩
    exact h2 hcell
  -- in-range, right pawn, t = f
  · simp only [Bool.false_eq_true, false_iff]
    rintro ⟨-, -, -, hne, -⟩
    exact hne h3.symm
  -- straight move, s = PLAYER
  · obtain ⟨a1, a2, a3, a4, b1, b2, b3, b4⟩ := h1
    subst h5
    simp only [Bool.and_eq_true, decide_eq_true_eq]
    constructor
    · rintro ⟨hrow, hcell⟩
      exact ⟨⟨a1, a2, a3, a4⟩, ⟨b1, b2, b3, b4⟩, not_not.mp h2,
        fun he => h3 he.symm,
        Or.inl ⟨h4, by rw [forward_dir_PLAYER]; exact hrow, hcell⟩⟩
    · rintro ⟨-, -, -, -, ⟨-, hrow, hcell⟩ | ⟨habs, -, -⟩⟩
      · exact ⟨by rw [forward_dir_PLAYER] at hrow; exact hrow, hcell⟩
      · rw [h4] at habs; simp at habs
  -- straight move, s = AI
  · obtain ⟨a1, a2, a3, a4, b1, b2, b3, b4⟩ := h1
    rcases hs with hsv | hsv
    · exact absurd hsv h5
    subst hsv
    simp only [Bool.and_eq_true, decide_eq_true_eq]
    constructor
    · rintro ⟨hrow, hcell⟩
      exact ⟨⟨a1, a2, a3, a4⟩, ⟨b1, b2, b3, b4⟩, not_not.mp h2,
        fun he => h3 he.symm,
        Or.inl ⟨h4, by rw [forward_dir_AI]; exact hrow, hcell⟩⟩
    · rintro ⟨-, -, -, -, ⟨-, hrow, hcell⟩ | ⟨habs, -, -⟩⟩
      · exact ⟨by rw [forward_dir_AI] at hrow; exact hrow, hcell⟩
      · rw [h4] at habs; simp at habs
  -- diagonal capture, s = PLAYER
  · obtain ⟨a1, a2, a3, a4, b1, b2, b3, b4⟩ := h1
    subst h7
    have hlt : cell b t.1 t.2 < 3 := cell_lt_three hwf b1 b2 b3 b4
    simp only [Bool.and_eq_true, decide_eq_true_eq]
    constructor
    · rintro ⟨hrow, hne0, hnes⟩
      refine ⟨⟨a1, a2, a3, a4⟩, ⟨b1, b2, b3, b4⟩, not_not.mp h2,
        fun he => h3 he.symm,
        Or.inr ⟨h6, by rw [forward_dir_PLAYER]; exact hrow, ?_⟩⟩
      rw [opp_of_PLAYER]
      simp only [EMPTY] at hne0
      simp only [PLAYER] at hnes
      simp only [AI]
      omega
    · rintro ⟨-, -, -, -, ⟨hcol, -, -⟩ | ⟨-, hrow, hcell⟩⟩
      · exact absurd hcol h4
      · refine ⟨by rw [forward_dir_PLAYER] at hrow; exact hrow, ?_, ?_⟩ <;>
          rw [opp_of_PLAYER] at hcell <;>
          simp only [EMPTY, PLAYER, AI] at hcell ⊢ <;> omega
  -- diagonal capture, s = AI
  · obtain ⟨a1, a2, a3, a4, b1, b2, b3, b4⟩ := h1
    rcases hs with hsv | hsv
    · exact absurd hsv h7
    subst hsv
    have hlt : cell b t.1 t.2 < 3 := cell_lt_three hwf b1 b2 b3 b4
    simp only [Bool.and_eq_true, decide_eq_true_eq]
    constructor
    · rintro ⟨hrow, hne0, hnes⟩
      refine ⟨⟨a1, a2, a3, a4⟩, ⟨b1, b2, b3, b4⟩, not_not.mp h2,
        fun he => h3 he.symm,
        Or.inr ⟨h6, by rw [forward_dir_AI]; exact hrow, ?_⟩⟩
      rw [opp_of_AI]
      simp only [EMPTY] at hne0
      simp only [AI] at hnes
      simp only [PLAYER]
      omega
    · rintro ⟨-, -, -, -, ⟨hcol, -, -⟩ | ⟨-, hrow, hcell⟩⟩
      · exact absurd hcol h4
      · refine ⟨by rw [forward_dir_AI] at hrow; exact hrow, ?_, ?_⟩ <;>
          rw [opp_of_AI] at hcell <;>
          simp only [EMPTY, PLAYER, AI] at hcell ⊢ <;> omega
  -- in-range but neither straight nor one-column diagonal
  · simp only [Bool.false_eq_true, false_iff]
    rintro ⟨-, -, -, -, ⟨hcol, -, -⟩ | ⟨habs, -, -⟩⟩
    · exact h4 hcol
    · exact h6 habs
  -- out of range
  · simp only [Bool.false_eq_true, false_iff]
    rintro ⟨⟨a1, a2, a3, a4⟩, ⟨b1, b2, b3, b4⟩, -⟩
    exact h1 ⟨a1, a2, a3, a4, b1, b2, b3, b4⟩

/-- C3: for every 3x3 board, coordinates `f` and `t`, and side (Human or
Computer), `is_valid_move(board, f, t, side)` returns true iff: both
coordinates are in range, the source cell holds exactly the moving side's
pawn, `f ≠ t`, and either (same column) `t` is one row in the side's
forward direction (Human: row−1; Computer: row+1) and empty, or (column
delta exactly 1) `t` is one row forward and holds the opposing side's
pawn; any other column delta is illegal, and in particular `f = t` is
always rejected. -/
theorem C3_is_valid_move_characterization (b : Board) (f t : Int × Int) (s : Nat)
    (hwf : Wellformed b) (hs : s = PLAYER ∨ s = AI) :
    is_valid_move b f t s = true ↔ ValidMoveSpec b f t s :=
  valid_move_iff_spec b f t s hwf hs

/-- Witness for C3 at the initial board and the Human's center advance. -/
theorem C3_is_valid_move_characterization_witness :
    Wellformed INITIAL_BOARD ∧
    (is_valid_move INITIAL_BOARD (2, 1) (1, 1) PLAYER = true ↔
      ValidMoveSpec INITIAL_BOARD (2, 1) (1, 1) PLAYER) :=
  ⟨by decide, C3_is_valid_move_characterization INITIAL_BOARD (2, 1) (1, 1) PLAYER
    (by decide) (Or.inl rfl)⟩

theorem getD_mem_of_lt {α : Type} {l : List α} {i : Nat} (d : α) (h : i < l.length) :
    l.getD i d ∈ l := by
  rw [List.getD_eq_getElem?_getD, List.getElem?_eq_getElem h]
  exact List.getElem_mem h

/-- The first disjunct of `check_win` — a pawn of `s` somewhere on row
`tr` — phrased as the claim phrases it. -/
theorem any_cols_iff (b : Board) (tr : Int) (s : Nat) :
    (([0, 1, 2] : List Int).any (fun col => cell b tr col = s) = true) ↔
    (∃ c : Int, 0 ≤ c ∧ c < 3 ∧ cell b tr c = s) := by
  rw [List.any_eq_true]
  constructor
  · rintro ⟨c, hcmem, hcell⟩
    simp only [List.mem_cons, List.mem_singleton, List.not_mem_nil, or_false] at hcmem
    rw [decide_eq_true_eq] at hcell
    rcases hcmem with rfl | rfl | rfl <;> exact ⟨_, by norm_num, by norm_num, hcell⟩
  · rintro ⟨c, h0, h3, hcell⟩
    refine ⟨c, ?_, by simpa using hcell⟩
    have hc : c = 0 ∨ c = 1 ∨ c = 2 := by omega
    simpa using hc

/-- No cell of a wellformed board holds `side` iff no in-range coordinate
reads as `side`. -/
theorem no_pawns_iff {b : Board} (hwf : Wellformed b) (side : Nat) :
    (∀ row ∈ b, ∀ a ∈ row, a ≠ side) ↔
    (∀ r c : Int, 0 ≤ r → r < 3 → 0 ≤ c → c < 3 → cell b r c ≠ side) := by
  constructor
  · intro h r c hr0 hr hc0 hc
    have hrowmem : b.getD r.toNat [] ∈ b := getD_mem_of_lt [] (by rw [hwf.1]; omega)
    have hrl : (b.getD r.toNat []).length = 3 := (hwf.2 _ hrowmem).1
    exact h _ hrowmem _ (getD_mem_of_lt 0 (by rw [hrl]; omega))
  · intro h row hrowmem a hamem
    obtain ⟨i, hi, hbi⟩ := List.mem_iff_getElem.mp hrowmem
    obtain ⟨j, hj, hrj⟩ := List.mem_iff_getElem.mp hamem
    have hi3 : i < 3 := by rw [hwf.1] at hi; exact hi
    have hj3 : j < 3 := by rw [(hwf.2 row hrowmem).1] at hj; exact hj
    have hbrow : b.getD i ([] : List Nat) = row := by
      rw [List.getD_eq_getElem?_getD, List.getElem?_eq_getElem hi, Option.getD_some, hbi]
    have harow : row.getD j 0 = a := by
      rw [List.getD_eq_getElem?_getD, List.getElem?_eq_getElem hj, Option.getD_some, hrj]
    have hcell : cell b (i : Int) (j : Int) = a := by
      unfold cell
      rw [Int.toNat_natCast, Int.toNat_natCast, hbrow, harow]
    have := h (i : Int) (j : Int) (by positivity) (by exact_mod_cast hi3)
      (by positivity) (by exact_mod_cast hj3)
    rwa [hcell] at this

/-- The second disjunct of `check_win` — the pawn count of `side` summed
over rows is zero — phrased as the claim phrases it. -/
theorem count_zero_iff {b : Board} (hwf : Wellformed b) (side : Nat) :
    ((b.map (fun row => row.countP (fun a => a = side))).sum = 0) ↔
    (∀ r c : Int, 0 ≤ r → r < 3 → 0 ≤ c → c < 3 → cell b r c ≠ side) := by
  rw [List.sum_eq_zero_iff, List.forall_mem_map, ← no_pawns_iff hwf side]
  constructor
  · intro h row hrow a ha
    have := List.countP_eq_zero.mp (h row hrow) a ha
    simpa using this
  · intro h row hrow
    exact List.countP_eq_zero.mpr (fun a ha => by simpa using h row hrow a ha)

/-- The claim's three win conditions for side `s`: a pawn of `s` on the
opponent's home row (row 0 for Human, row 2 for Computer), no opposing
pawn anywhere on the board, or no legal opposing move per the move
generator. -/
abbrev WinSpec (b : Board) (s : Nat) : Prop :=
  (∃ c : Int, 0 ≤ c ∧ c < 3 ∧ cell b (if s = PLAYER then (0 : Int) else 2) c = s) ∨
  (∀ r c : Int, 0 ≤ r → r < 3 → 0 ≤ c → c < 3 → cell b r c ≠ opp_of s) ∨
  get_all_valid_moves b (opp_of s) = []

/-- C4: for every 3x3 board and side, `check_win(board, side)` returns
true iff at least one of: the side has a pawn on the opponent's home row
(row 0 for Human, row 2 for Computer), the opponent has zero pawns
remaining on the board, or the opponent has no legal moves as enumerated by
the move generator. -/
theorem C4_check_win_characterization (b : Board) (s : Nat)
    (hwf : Wellformed b) (hs : s = PLAYER ∨ s = AI) :
    check_win b s = true ↔ WinSpec b s := by
  simp only [check_win]
  rcases hs with hsv | hsv <;> subst hsv
  · simp only [ite_true,
      show (if (PLAYER : Nat) = AI then PLAYER else AI) = AI from rfl]
    split_ifs with hA hB hC
    · exact iff_of_true rfl (Or.inl ((any_cols_iff b 0 PLAYER).mp hA))
    · exact iff_of_true rfl (Or.inr (Or.inl ((count_zero_iff hwf AI).mp hB)))
    · exact iff_of_true rfl (Or.inr (Or.inr hC))
    · refine iff_of_false (by simp) ?_
      rintro (hcol | hnone | hempty)
      · exact hA ((any_cols_iff b 0 PLAYER).mpr hcol)
      · exact hB ((count_zero_iff hwf AI).mpr hnone)
      · exact hC hempty
  · simp only [ite_true,
      show (if (AI : Nat) = PLAYER then (0 : Int) else 2) = 2 from rfl]
    split_ifs with hA hB hC
    · exact iff_of_true rfl (Or.inl ((any_cols_iff b 2 AI).mp hA))
    · exact iff_of_true rfl (Or.inr (Or.inl ((count_zero_iff hwf PLAYER).mp hB)))
    · exact iff_of_true rfl (Or.inr (Or.inr hC))
    · refine iff_of_false (by simp) ?_
      rintro (hcol | hnone | hempty)
      · exact hA ((any_cols_iff b 2 AI).mpr hcol)
      · exact hB ((count_zero_iff hwf PLAYER).mpr hnone)
      · exact hC hempty

/-- Witness for C4 at the initial board with the Computer as the side. -/
theorem C4_check_win_characterization_witness :
    Wellformed INITIAL_BOARD ∧
    (check_win INITIAL_BOARD AI = true ↔ WinSpec INITIAL_BOARD AI) :=
  ⟨by decide, C4_check_win_characterization INITIAL_BOARD AI (by decide) (Or.inr rfl)⟩

theorem mem_ite_singleton {α : Type} {P : Prop} [Decidable P] {a x : α} :
    (a ∈ if P then [x] else []) ↔ P ∧ a = x := by
  by_cases h : P <;> simp [h]

theorem ite_some_eq_some {α : Type} {P : Prop} [Decidable P] {x a : α} :
    ((if P then some x else none) = some a) ↔ P ∧ x = a := by
  by_cases h : P <;> simp [h]

/-- Membership in the moves contributed by one source cell. -/
theorem mem_cellMoves_iff (b : Board) (s : Nat) (row col : Int) (f t : Int × Int) :
    ((f, t) ∈ cellMoves b s row col) ↔
      (cell b row col = s ∧ f = (row, col) ∧
        ((0 ≤ row + forward_dir s ∧ row + forward_dir s < 3 ∧
            cell b (row + forward_dir s) col = EMPTY ∧
            t = (row + forward_dir s, col)) ∨
         (∃ dc : Int, (dc = -1 ∨ dc = 1) ∧
            0 ≤ row + forward_dir s ∧ row + forward_dir s < 3 ∧
            0 ≤ col + dc ∧ col + dc < 3 ∧
            cell b (row + forward_dir s) (col + dc) ≠ EMPTY ∧
            cell b (row + forward_dir s) (col + dc) ≠ s ∧
            t = (row + forward_dir s, col + dc)))) := by
  constructor
  · intro hmem
    simp only [cellMoves] at hmem
    by_cases hcell : cell b row col = s
    · rw [if_pos hcell, List.mem_append] at hmem
      refine ⟨hcell, ?_⟩
      rcases hmem with hfwd | hcap
      · rw [mem_ite_singleton] at hfwd
        obtain ⟨⟨hp1, hp2, hp3⟩, heq⟩ := hfwd
        rw [Prod.mk.injEq] at heq
        exact ⟨heq.1, Or.inl ⟨hp1, hp2, hp3, heq.2⟩⟩
      · rw [List.mem_filterMap] at hcap
        obtain ⟨dc, hdcmem, hsome⟩ := hcap
        rw [ite_some_eq_some] at hsome
        obtain ⟨⟨hq1, hq2, hq3, hq4, hq5, hq6⟩, heq⟩ := hsome
        rw [Prod.mk.injEq] at heq
        have hdc : dc = -1 ∨ dc = 1 := by simpa using hdcmem
        exact ⟨heq.1.symm, Or.inr ⟨dc, hdc, hq1, hq2, hq3, hq4, hq5, hq6, heq.2.symm⟩⟩
    · rw [if_neg hcell] at hmem
      cases hmem
  · rintro ⟨hcell, rfl, hbr⟩
    simp only [cellMoves]
    rw [if_pos hcell, List.mem_append]
    rcases hbr with ⟨hp1, hp2, hp3, ht⟩ | ⟨dc, hdc, hq1, hq2, hq3, hq4, hq5, hq6, ht⟩
    · left
      rw [mem_ite_singleton]
      exact ⟨⟨hp1, hp2, hp3⟩, by rw [ht]⟩
    · right
      rw [List.mem_filterMap]
      refine ⟨dc, by simpa using hdc, ?_⟩
      rw [ite_some_eq_some]
      exact ⟨⟨hq1, hq2, hq3, hq4, hq5, hq6⟩, by rw [ht]⟩

/-- Membership in `get_all_valid_moves` coincides with the claim's
characterization of a valid move. -/
theorem mem_moves_iff_spec (b : Board) (s : Nat) (hwf : Wellformed b)
    (hs : s = PLAYER ∨ s = AI) (f t : Int × Int) :
    ((f, t) ∈ get_all_valid_moves b s) ↔ ValidMoveSpec b f t s := by
  have hdir : forward_dir s = -1 ∨ forward_dir s = 1 := by
    rcases hs with h | h <;> subst h
    · exact Or.inl forward_dir_PLAYER
    · exact Or.inr forward_dir_AI
  simp only [get_all_valid_moves, List.mem_flatMap]
  constructor
  · rintro ⟨r, hrmem, c, hcmem, hmem⟩
    have hr : r = 0 ∨ r = 1 ∨ r = 2 := by simpa using hrmem
    have hc : c = 0 ∨ c = 1 ∨ c = 2 := by simpa using hcmem
    have hr3 : 0 ≤ r ∧ r < 3 := by rcases hr with rfl | rfl | rfl <;> norm_num
    have hc3 : 0 ≤ c ∧ c < 3 := by rcases hc with rfl | rfl | rfl <;> norm_num
    rw [mem_cellMoves_iff] at hmem
    obtain ⟨hcell, rfl, hbr⟩ := hmem
    rcases hbr with ⟨hp1, hp2, hp3, rfl⟩ | ⟨dc, hdc, hq1, hq2, hq3, hq4, hq5, hq6, rfl⟩
    · refine ⟨⟨hr3.1, hr3.2, hc3.1, hc3.2⟩, ⟨hp1, hp2, hc3.1, hc3.2⟩, hcell, ?_,
        Or.inl ⟨rfl, rfl, hp3⟩⟩
      intro heq
      rw [Prod.mk.injEq] at heq
      rcases hdir with hd | hd <;> rw [hd] at heq <;> omega
    · have hcelllt : cell b (r + forward_dir s) (c + dc) < 3 :=
        cell_lt_three hwf hq1 hq2 hq3 hq4
      refine ⟨⟨hr3.1, hr3.2, hc3.1, hc3.2⟩, ⟨hq1, hq2, hq3, hq4⟩, hcell, ?_, Or.inr ⟨?_, rfl, ?_⟩⟩
      · intro heq
        rw [Prod.mk.injEq] at heq
        rcases hdir with hd | hd <;> rw [hd] at heq <;> omega
      · rcases hdc with rfl | rfl <;> simp
      · generalize hgen : cell b (r + forward_dir s) (c + dc) = x at hq5 hq6 hcelllt ⊢
        rcases hs with hsv | hsv <;> subst hsv <;>
          [rw [opp_of_PLAYER]; rw [opp_of_AI]] <;>
          revert hq5 hq6 <;> simp only [EMPTY, PLAYER, AI] <;> omega
  · rintro ⟨hf, ht, hcell, hne, hbr⟩
    have hf1 : f.1 = 0 ∨ f.1 = 1 ∨ f.1 = 2 := by obtain ⟨h1, h2, h3, h4⟩ := hf; omega
    have hf2 : f.2 = 0 ∨ f.2 = 1 ∨ f.2 = 2 := by obtain ⟨h1, h2, h3, h4⟩ := hf; omega
    refine ⟨f.1, by simpa using hf1, f.2, by simpa using hf2, ?_⟩
    rw [mem_cellMoves_iff]
    refine ⟨hcell, Prod.mk.eta.symm, ?_⟩
    obtain ⟨ht1, ht2, ht3, ht4⟩ := ht
    rcases hbr with ⟨hcol, hrow, hempty⟩ | ⟨habs, hrow, hopp⟩
    · refine Or.inl ⟨by omega, by omega, ?_, ?_⟩
      · rw [← hrow, ← hcol]; exact hempty
      · rw [Prod.mk.injEq]; exact ⟨hrow, hcol⟩
    · refine Or.inr ⟨t.2 - f.2, by omega, by omega, by omega, by omega, by omega, ?_, ?_, ?_⟩
      · rw [← hrow, show f.2 + (t.2 - f.2) = t.2 by ring, hopp]
        rcases hs with hsv | hsv <;> subst hsv <;>
          [rw [opp_of_PLAYER]; rw [opp_of_AI]] <;> simp [EMPTY, PLAYER, AI]
      · rw [← hrow, show f.2 + (t.2 - f.2) = t.2 by ring, hopp]
        rcases hs with hsv | hsv <;> subst hsv <;>
          [rw [opp_of_PLAYER]; rw [opp_of_AI]] <;>
          simp only [PLAYER, AI] <;> omega
      · rw [Prod.mk.injEq]
        exact ⟨hrow, by ring⟩

/-- C5: for every board `P` and side `S` (Human or Computer), the list
returned by `get_all_valid_moves(P, S)` contains exactly the pairs
`(from, to)` of in-range coordinates for which `is_valid_move(P, from, to,
S)` is true: every enumerated move passes validation, and every move
passing validation is enumerated. -/
theorem C5_move_generator_matches_validator (b : Board) (s : Nat)
    (hwf : Wellformed b) (hs : s = PLAYER ∨ s = AI) (mv : Move) :
    mv ∈ get_all_valid_moves b s ↔
      (in_range mv.1 ∧ in_range mv.2 ∧ is_valid_move b mv.1 mv.2 s = true) := by
  obtain ⟨f, t⟩ := mv
  rw [mem_moves_iff_spec b s hwf hs f t, valid_move_iff_spec b f t s hwf hs]
  constructor
  · rintro ⟨h1, h2, h3⟩
    exact ⟨h1, h2, h1, h2, h3⟩
  · rintro ⟨-, -, hspec⟩
    exact hspec

/-- Witness for C5 at the initial board, Human side, center advance. -/
theorem C5_move_generator_matches_validator_witness :
    Wellformed INITIAL_BOARD ∧
    (((2, 1), (1, 1)) ∈ get_all_valid_moves INITIAL_BOARD PLAYER ↔
      (in_range ((2 : Int), (1 : Int)) ∧ in_range ((1 : Int), (1 : Int)) ∧
        is_valid_move INITIAL_BOARD (2, 1) (1, 1) PLAYER = true)) :=
  ⟨by decide, C5_move_generator_matches_validator INITIAL_BOARD PLAYER
    (by decide) (Or.inl rfl) ((2, 1), (1, 1))⟩

/-- C6: for every board, if the Computer has no legal moves then
`check_win(board, PLAYER)` is true (its third condition fires), and
consequently the `/move` handler's draw branch is unreachable: for any
session state whose stored winner is not "draw", neither the response nor
the new session state ever carries winner "draw" — no game is reported as
a draw. -/
theorem C6_no_draw :
    (∀ b : Board, get_all_valid_moves b AI = [] → check_win b PLAYER = true) ∧
    (∀ (st : GameState) (f t : Int × Int), st.winner ≠ some "draw" →
      (move_handler st f t).1.winner ≠ some "draw" ∧
      (move_handler st f t).2.winner ≠ some "draw") := by
  have key : ∀ b : Board, get_all_valid_moves b AI = [] → check_win b PLAYER = true := by
    intro b h
    simp only [check_win, ite_true,
      show (if (PLAYER : Nat) = AI then PLAYER else AI) = AI from rfl]
    split_ifs <;> rfl
  refine ⟨key, ?_⟩
  intro st f t hw
  simp only [move_handler]
  split_ifs with h1 h2 h3 h4 h5 h6
  · exact ⟨by simpa using hw, by simpa using hw⟩
  · exact ⟨by simp, by simp⟩
  · exact absurd (key _ h4) h3
  · exact ⟨by simp, by simp⟩
  · exact ⟨by simp, by simp⟩
  · exact ⟨by simp, by simpa using hw⟩
  · exact ⟨by simp, by simpa using hw⟩

/-- Witness for C6 on the empty board (Computer pawnless and moveless). -/
theorem C6_no_draw_witness :
    get_all_valid_moves ([[0, 0, 0], [0, 0, 0], [0, 0, 0]] : Board) AI = [] ∧
    check_win ([[0, 0, 0], [0, 0, 0], [0, 0, 0]] : Board) PLAYER = true :=
  ⟨by decide, C6_no_draw.1 _ (by decide)⟩

theorem getD_set_eq {α : Type} (l : List α) {i : Nat} (h : i < l.length) (v d : α) :
    (l.set i v).getD i d = v := by
  rw [List.getD_eq_getElem?_getD, List.getElem?_set_self h, Option.getD_some]

theorem getD_set_ne {α : Type} (l : List α) {i j : Nat} (h : i ≠ j) (v d : α) :
    (l.set i v).getD j d = l.getD j d := by
  rw [List.getD_eq_getElem?_getD, List.getElem?_set_ne h, ← List.getD_eq_getElem?_getD]

/-- Reading a cell after a single in-place write. -/
theorem cell_setCell {b : Board} (hlen : b.length = 3)
    (hrows : ∀ row ∈ b, row.length = 3) {r c r' c' : Int}
    (hr0 : 0 ≤ r) (hr1 : r < 3) (hc0 : 0 ≤ c) (hc1 : c < 3)
    (hr0' : 0 ≤ r') (hr1' : r' < 3) (hc0' : 0 ≤ c') (hc1' : c' < 3) (v : Nat) :
    cell (setCell b r c v) r' c' = if r' = r ∧ c' = c then v else cell b r' c' := by
  have hrn : r.toNat < b.length := by omega
  unfold cell setCell
  by_cases hre : r' = r
  · subst hre
    have hrow : (b.set r'.toNat ((b.getD r'.toNat []).set c.toNat v)).getD r'.toNat [] =
        (b.getD r'.toNat []).set c.toNat v := getD_set_eq b hrn _ _
    rw [hrow]
    have hrl : (b.getD r'.toNat []).length = 3 := hrows _ (getD_mem_of_lt [] hrn)
    by_cases hce : c' = c
    · subst hce
      rw [if_pos ⟨rfl, rfl⟩]
      exact getD_set_eq _ (by omega) _ _
    · rw [if_neg (by tauto)]
      exact getD_set_ne _ (by omega) _ _
  · rw [if_neg (by tauto)]
    have hother : (b.set r.toNat ((b.getD r.toNat []).set c.toNat v)).getD r'.toNat [] =
        b.getD r'.toNat [] := getD_set_ne b (by omega) _ _
    rw [hother]

/-- Frame conditions for `make_move` on in-range distinct coordinates. -/
theorem make_move_cells {b : Board} (hwf : Wellformed b) {f t : Int × Int}
    (hf : in_range f) (ht : in_range t) (hne : f ≠ t) :
    cell (make_move b f t) t.1 t.2 = cell b f.1 f.2 ∧
    cell (make_move b f t) f.1 f.2 = EMPTY ∧
    ∀ p : Int × Int, in_range p → p ≠ f → p ≠ t →
      cell (make_move b f t) p.1 p.2 = cell b p.1 p.2 := by
  obtain ⟨hf0, hf1, hf2, hf3⟩ := hf
  obtain ⟨ht0, ht1, ht2, ht3⟩ := ht
  have hlen : b.length = 3 := hwf.1
  have hrows : ∀ row ∈ b, row.length = 3 := fun row hr => (hwf.2 row hr).1
  have hlen1 : (setCell b t.1 t.2 (cell b f.1 f.2)).length = 3 := by
    unfold setCell; rw [List.length_set]; exact hlen
  have hrows1 : ∀ row ∈ setCell b t.1 t.2 (cell b f.1 f.2), row.length = 3 := by
    intro row hrow
    unfold setCell at hrow
    rcases List.mem_or_eq_of_mem_set hrow with h | h
    · exact hrows _ h
    · subst h
      rw [List.length_set]
      exact hrows _ (getD_mem_of_lt [] (by omega))
  have hne' : ¬(t.1 = f.1 ∧ t.2 = f.2) := by
    rintro ⟨ha, hb⟩
    exact hne (Prod.ext_iff.mpr ⟨ha, hb⟩).symm
  refine ⟨?_, ?_, ?_⟩
  · show cell (setCell (setCell b t.1 t.2 (cell b f.1 f.2)) f.1 f.2 EMPTY) t.1 t.2 = _
    rw [cell_setCell hlen1 hrows1 hf0 hf1 hf2 hf3 ht0 ht1 ht2 ht3, if_neg hne',
      cell_setCell hlen hrows ht0 ht1 ht2 ht3 ht0 ht1 ht2 ht3, if_pos ⟨rfl, rfl⟩]
  · show cell (setCell (setCell b t.1 t.2 (cell b f.1 f.2)) f.1 f.2 EMPTY) f.1 f.2 = _
    rw [cell_setCell hlen1 hrows1 hf0 hf1 hf2 hf3 hf0 hf1 hf2 hf3, if_pos ⟨rfl, rfl⟩]
  · intro p hp hpf hpt
    obtain ⟨hp0, hp1, hp2, hp3⟩ := hp
    have hpf' : ¬(p.1 = f.1 ∧ p.2 = f.2) := by
      rintro ⟨ha, hb⟩; exact hpf (Prod.ext_iff.mpr ⟨ha, hb⟩)
    have hpt' : ¬(p.1 = t.1 ∧ p.2 = t.2) := by
      rintro ⟨ha, hb⟩; exact hpt (Prod.ext_iff.mpr ⟨ha, hb⟩)
    show cell (setCell (setCell b t.1 t.2 (cell b f.1 f.2)) f.1 f.2 EMPTY) p.1 p.2 = _
    rw [cell_setCell hlen1 hrows1 hf0 hf1 hf2 hf3 hp0 hp1 hp2 hp3, if_neg hpf',
      cell_setCell hlen hrows ht0 ht1 ht2 ht3 hp0 hp1 hp2 hp3, if_neg hpt']

/-- C8 counterexample: for `from = to = (2,1)` on the initial board the
claimed postcondition fails — the cell ends up `EMPTY`, not holding what
the source cell held. -/
theorem C8_from_eq_to_counterexample :
    ¬(cell (make_move INITIAL_BOARD (2, 1) (2, 1)) 2 1 = cell INITIAL_BOARD 2 1 ∧
      cell (make_move INITIAL_BOARD (2, 1) (2, 1)) 2 1 = EMPTY) := by decide

/-- C8 amended: for every 3x3 board and every move `(from, to)` of in-range
coordinates with `from ≠ to`, `make_move` returns a board in which the `to`
cell holds exactly what the `from` cell held, the `from` cell is empty, and
every other cell is unchanged; the embedding is a pure function, so the
input board is never mutated and two calls with the same inputs yield
value-equal outputs. -/
theorem C8_amended_make_move_frame (b : Board) (f t : Int × Int)
    (hwf : Wellformed b) (hf : in_range f) (ht : in_range t) (hne : f ≠ t) :
    cell (make_move b f t) t.1 t.2 = cell b f.1 f.2 ∧
    cell (make_move b f t) f.1 f.2 = EMPTY ∧
    (∀ p : Int × Int, in_range p → p ≠ f → p ≠ t →
      cell (make_move b f t) p.1 p.2 = cell b p.1 p.2) ∧
    make_move b f t = make_move b f t := by
  obtain ⟨h1, h2, h3⟩ := make_move_cells hwf hf ht hne
  exact ⟨h1, h2, h3, rfl⟩

/-- Witness for the amended C8 at the Human's center advance. -/
theorem C8_amended_make_move_frame_witness :
    Wellformed INITIAL_BOARD ∧ ((2 : Int), (1 : Int)) ≠ ((1 : Int), (1 : Int)) ∧
    cell (make_move INITIAL_BOARD (2, 1) (1, 1)) 1 1 = cell INITIAL_BOARD 2 1 ∧
    cell (make_move INITIAL_BOARD (2, 1) (1, 1)) 2 1 = EMPTY :=
  ⟨by decide, by decide,
    (C8_amended_make_move_frame INITIAL_BOARD (2, 1) (1, 1) (by decide)
      (by decide) (by decide) (by decide)).1,
    (C8_amended_make_move_frame INITIAL_BOARD (2, 1) (1, 1) (by decide)
      (by decide) (by decide) (by decide)).2.1⟩

/-- Digit character back to a cell value (decoder used only to establish
injectivity of the canonical form). -/
def unDigit (ch : Char) : Nat := ch.toNat - 48

/-- Decoder for the 9-character canonical form. -/
def string_to_board (s : String) : Board :=
  match s.data with
  | [a, b, c, d, e, f, g, h, i] =>
      [[unDigit a, unDigit b, unDigit c],
       [unDigit d, unDigit e, unDigit f],
       [unDigit g, unDigit h, unDigit i]]
  | _ => []

theorem toString_digit_data {n : Nat} (h : n < 3) :
    (toString n).data = [Char.ofNat (48 + n)] := by
  interval_cases n <;> decide

theorem unDigit_ofNat {n : Nat} (h : n < 3) : unDigit (Char.ofNat (48 + n)) = n := by
  interval_cases n <;> decide

theorem foldl_append_data (l : List String) (acc : String) :
    (l.foldl (fun r s => r ++ s) acc).data = acc.data ++ (l.map String.data).flatten := by
  induction l generalizing acc with
  | nil => simp
  | cons s ss ih =>
    simp only [List.foldl_cons, List.map_cons, List.flatten_cons]
    rw [ih (acc ++ s), String.data_append, List.append_assoc]

theorem data_join (l : List String) :
    (String.join l).data = (l.map String.data).flatten := by
  have h := foldl_append_data l ""
  simpa [String.join] using h

/-- The decoder is a left inverse of `board_to_string` on wellformed
boards. -/
theorem string_to_board_board_to_string {b : Board} (hwf : Wellformed b) :
    string_to_board (board_to_string b) = b := by
  obtain ⟨hlen, hrows⟩ := hwf
  obtain ⟨r0, r1, r2, rfl⟩ := List.length_eq_three.mp hlen
  obtain ⟨hl0, hc0⟩ := hrows r0 (by simp)
  obtain ⟨hl1, hc1⟩ := hrows r1 (by simp)
  obtain ⟨hl2, hc2⟩ := hrows r2 (by simp)
  obtain ⟨a, b0, c, rfl⟩ := List.length_eq_three.mp hl0
  obtain ⟨d, e, f, rfl⟩ := List.length_eq_three.mp hl1
  obtain ⟨g, h, i, rfl⟩ := List.length_eq_three.mp hl2
  have hdata : (board_to_string [[a, b0, c], [d, e, f], [g, h, i]]).data =
      [Char.ofNat (48 + a), Char.ofNat (48 + b0), Char.ofNat (48 + c),
       Char.ofNat (48 + d), Char.ofNat (48 + e), Char.ofNat (48 + f),
       Char.ofNat (48 + g), Char.ofNat (48 + h), Char.ofNat (48 + i)] := by
    simp only [board_to_string, List.map_cons, List.map_nil, data_join,
      toString_digit_data (hc0 a (by simp)), toString_digit_data (hc0 b0 (by simp)),
      toString_digit_data (hc0 c (by simp)), toString_digit_data (hc1 d (by simp)),
      toString_digit_data (hc1 e (by simp)), toString_digit_data (hc1 f (by simp)),
      toString_digit_data (hc2 g (by simp)), toString_digit_data (hc2 h (by simp)),
      toString_digit_data (hc2 i (by simp))]
    simp
  simp only [string_to_board, hdata,
    unDigit_ofNat (hc0 a (by simp)), unDigit_ofNat (hc0 b0 (by simp)),
    unDigit_ofNat (hc0 c (by simp)), unDigit_ofNat (hc1 d (by simp)),
    unDigit_ofNat (hc1 e (by simp)), unDigit_ofNat (hc1 f (by simp)),
    unDigit_ofNat (hc2 g (by simp)), unDigit_ofNat (hc2 h (by simp)),
    unDigit_ofNat (hc2 i (by simp))]

/-- C9: on 3x3 boards whose cells are each one of Empty(0), Player(1),
AI(2), `board_to_string` is injective and respects structural equality:
two boards map to the same canonical string iff they have identical cell
contents, so the canonical form introduces no false aliasing and no missed
aliasing in table lookups. -/
theorem C9_board_to_string_injective (b1 b2 : Board)
    (h1 : Wellformed b1) (h2 : Wellformed b2) :
    board_to_string b1 = board_to_string b2 ↔ b1 = b2 := by
  constructor
  · intro h
    have hc := congrArg string_to_board h
    rwa [string_to_board_board_to_string h1, string_to_board_board_to_string h2] at hc
  · intro h
    rw [h]

/-- Witness for C9 on two distinct wellformed boards. -/
theorem C9_board_to_string_injective_witness :
    Wellformed INITIAL_BOARD ∧ Wellformed ([[2, 2, 2], [0, 1, 0], [1, 0, 1]] : Board) ∧
    (board_to_string INITIAL_BOARD =
        board_to_string ([[2, 2, 2], [0, 1, 0], [1, 0, 1]] : Board) ↔
      INITIAL_BOARD = ([[2, 2, 2], [0, 1, 0], [1, 0, 1]] : Board)) :=
  ⟨by decide, by decide,
    C9_board_to_string_injective INITIAL_BOARD [[2, 2, 2], [0, 1, 0], [1, 0, 1]]
      (by decide) (by decide)⟩

/-- C10: when a proposed human move fails validation (`is_valid_move`
returns false: coordinates out of range, the source cell does not hold the
Human's pawn, or the move matches neither the straight-advance nor the
diagonal-capture pattern) on a game that is not over, the `/move` handler
returns an error result and the stored game state — session board,
game-over flag, and winner — is exactly what it was before the request. -/
theorem C10_invalid_move_rejected_state_unchanged (st : GameState) (f t : Int × Int)
    (hgo : st.game_over = false)
    (hinv : is_valid_move st.board f t PLAYER = false) :
    (move_handler st f t).1.error = true ∧ (move_handler st f t).2 = st := by
  unfold move_handler
  rw [if_neg (by rw [hgo]; exact Bool.false_ne_true)]
  rw [if_pos (by rw [hinv]; exact Bool.false_ne_true)]
  exact ⟨rfl, rfl⟩

/-- Witness for C10: the degenerate request `from = to = (0,0)` on a fresh
session. -/
theorem C10_invalid_move_rejected_state_unchanged_witness :
    (⟨INITIAL_BOARD, false, none⟩ : GameState).game_over = false ∧
    is_valid_move INITIAL_BOARD (0, 0) (0, 0) PLAYER = false ∧
    (move_handler ⟨INITIAL_BOARD, false, none⟩ (0, 0) (0, 0)).1.error = true ∧
    (move_handler ⟨INITIAL_BOARD, false, none⟩ (0, 0) (0, 0)).2 =
      (⟨INITIAL_BOARD, false, none⟩ : GameState) :=
  ⟨rfl, by decide,
    (C10_invalid_move_rejected_state_unchanged ⟨INITIAL_BOARD, false, none⟩ (0, 0) (0, 0)
      rfl (by decide)).1,
    (C10_invalid_move_rejected_state_unchanged ⟨INITIAL_BOARD, false, none⟩ (0, 0) (0, 0)
      rfl (by decide)).2⟩

end Hexpawn

